import Mathlib

/-!
A shallow embedding of the dense rank-4 container of src/array4d.h
(class xla::Array4D<T> and the free function xla::MatrixMul) together with
proofs about its storage layout, constructors, fill operations, equality,
and the batched matrix multiplication.

Modelling conventions:
* the element type T is taken as the exact rationals, so the float
  tolerance of operator== is the exact rational 1/1000000;
* int64 dimensions and indices are taken as Nat (all uses in the source
  are non-negative);
* a fatal CHECK / DCHECK / assert failure is modelled by an Option-valued
  operation returning none (the failed operation produces no result);
* std::vector<T> is a Lean List.
-/

/-- Modelled from the spec: the external 2D dense array collaborator
(array2d.h is not among the sources) exposing height, width and (row, col)
element access in row-major order. -/
structure Array2D where
  height : Nat
  width : Nat
  values : List ℚ
deriving DecidableEq

/-- Read-only (row, col) access of the 2D collaborator. -/
def Array2D.el (a : Array2D) (r c : Nat) : ℚ := a.values.getD (r * a.width + c) 0

/-- xla::Array4D<T> (lines 67-378): four dimension fields, in major-to-minor
order planes_, depth_, height_, width_, and the backing vector values_.
The TensorArray base class only stores the same four dimensions again, so it
is folded into these fields. -/
structure Array4D where
  planes : Nat
  depth : Nat
  height : Nat
  width : Nat
  values : List ℚ
deriving DecidableEq

/-- n4() (line 186). -/
def Array4D.n4 (a : Array4D) : Nat := a.width

/-- n3() (line 187). -/
def Array4D.n3 (a : Array4D) : Nat := a.height

/-- n2() (line 188). -/
def Array4D.n2 (a : Array4D) : Nat := a.depth

/-- n1() (line 189). -/
def Array4D.n1 (a : Array4D) : Nat := a.planes

/-- num_elements() (line 190): the size of the backing vector. -/
def Array4D.num_elements (a : Array4D) : Nat := a.values.length

/-- Modelled from the spec: Batch() of the TensorArray base class
(tensor_array.h is not among the sources) returns the first dimension n1. -/
def Array4D.Batch (a : Array4D) : Nat := a.planes

/-- Modelled from the spec: Depth() of the TensorArray base class returns n2. -/
def Array4D.Depth (a : Array4D) : Nat := a.depth

/-- Modelled from the spec: Height() of the TensorArray base class returns n3. -/
def Array4D.Height (a : Array4D) : Nat := a.height

/-- Modelled from the spec: Width() of the TensorArray base class returns n4. -/
def Array4D.Width (a : Array4D) : Nat := a.width

/-- Modelled from the spec: size(i) of the TensorArray base class returns the
i-th dimension, major to minor; consistent with convert() (lines 338-351),
which builds an identically-dimensioned result from size(0)..size(3). -/
def Array4D.size (a : Array4D) : Nat → Nat
  | 0 => a.planes
  | 1 => a.depth
  | 2 => a.height
  | _ => a.width

/-- The linear index of operator() (lines 150-151):
plane * (depth_ * height_ * width_) + depth * (height_ * width_)
+ height * width_ + width. -/
def Array4D.index (a : Array4D) (p d h w : Nat) : Nat :=
  p * (a.depth * a.height * a.width) + d * (a.height * a.width) + h * a.width + w

/-- Unchecked read of values_[index]. Every use below reads coordinates that
the surrounding guards have already put in range. -/
def Array4D.el (a : Array4D) (p d h w : Nat) : ℚ := a.values.getD (a.index p d h w) 0

/-- operator()(plane, depth, height, width) (lines 144-153): CHECK_LT each
coordinate against its dimension, then read at the linear index. none models
the fatal CHECK failure. -/
def Array4D.At (a : Array4D) (p d h w : Nat) : Option ℚ :=
  if p < a.planes ∧ d < a.depth ∧ h < a.height ∧ w < a.width
  then some (a.el p d h w) else none

/-- The storage invariant: values_.size() = planes_ * depth_ * height_ * width_. -/
def Array4D.valid (a : Array4D) : Prop :=
  a.values.length = a.planes * a.depth * a.height * a.width

instance (a : Array4D) : Decidable a.valid := by
  unfold Array4D.valid; infer_instance

/-- Array4D(planes, depth, height, width) (lines 72-78): the backing
std::vector<T>(n) value-initializes its n elements (0 for numeric T). -/
def Array4D.mkSized (p d h w : Nat) : Array4D :=
  ⟨p, d, h, w, List.replicate (p * d * h * w) 0⟩

/-- Array4D(planes, depth, height, width, value) (lines 81-87). -/
def Array4D.mkFilled (p d h w : Nat) (v : ℚ) : Array4D :=
  ⟨p, d, h, w, List.replicate (p * d * h * w) v⟩

/-- Array4D(planes, depth, height, width, input_array) (lines 92-101):
copies the flat vector, then CHECK_EQ(planes*depth*height*width, size). -/
def Array4D.ofVector (p d h w : Nat) (input : List ℚ) : Option Array4D :=
  if p * d * h * w = input.length then some ⟨p, d, h, w, input⟩ else none

/-- SetValues(container) (lines 195-200):
CHECK_EQ(distance(container), num_elements()), then values_.assign. -/
def Array4D.SetValues (a : Array4D) (c : List ℚ) : Option Array4D :=
  if c.length = a.num_elements then some { a with values := c } else none

/-- Array4D(planes, depth, height, width, values) for a generic container
(lines 108-113): delegates to the sized constructor, then SetValues. -/
def Array4D.ofContainer (p d h w : Nat) (c : List ℚ) : Option Array4D :=
  (Array4D.mkSized p d h w).SetValues c

/-- Outcome of the nested-initializer-list constructor: a value, a fatal
DCHECK failure on ragged input, or undefined behavior (dereferencing the
begin iterator of an empty list during dimension inference). -/
inductive NestedOutcome where
  | ok (a : Array4D)
  | ragged
  | undef
deriving DecidableEq

/-- The DCHECK_EQ sibling-length validation of the nested constructor body
(lines 122-141): every plane has depth_ entries, every depth-list height_
entries, every height-list width_ entries. -/
def nestedUniform (n2 n3 n4 : Nat) (vs : List (List (List (List ℚ)))) : Bool :=
  vs.all fun pl =>
    pl.length == n2 && pl.all fun dl =>
      dl.length == n3 && dl.all fun hl => hl.length == n4

/-- Array4D(nested initializer_list) (lines 116-142). The delegating
constructor first infers (n1, n2, n3, n4) as (values.size(), size of the
first plane, size of the first depth-list, size of the first height-list);
computing the last three dereferences values.begin(), then the begin of the
first plane, then the begin of the first depth-list, which is undefined
behavior when the corresponding list is empty (the size of the first
height-list is read without dereferencing it, so an empty first height-list
is harmless). The body then DCHECKs every sibling length and writes each
element through operator() walking the nesting in (plane, depth, height,
width) order; on uniform input those writes cover the backing storage in
row-major order, so values_ is the triple flattening of the nested lists. -/
def Array4D.ofNested (vs : List (List (List (List ℚ)))) : NestedOutcome :=
  match vs with
  | [] => .undef
  | pl0 :: _ =>
    match pl0 with
    | [] => .undef
    | dl0 :: _ =>
      match dl0 with
      | [] => .undef
      | hl0 :: _ =>
        if nestedUniform pl0.length dl0.length hl0.length vs
        then .ok ⟨vs.length, pl0.length, dl0.length, hl0.length,
                  vs.flatten.flatten.flatten⟩
        else .ragged

/-- The storage invariant evaluated on a successful nested-construction
outcome (trivially true for the failure outcomes). -/
def NestedOutcome.okValid : NestedOutcome → Prop
  | .ok a => a.valid
  | .ragged => True
  | .undef => True

/-- The float tolerance 0.000001f of operator== as an exact rational. -/
def tolerance : ℚ := 1 / 1000000

/-- operator==(rhs) (lines 159-177): false unless num_elements and all four
dimensions agree; then a conjunction over every flat index of
abs(values_[i] - rhs.values_[i]) < 0.000001f. -/
def Array4D.Equals (a b : Array4D) : Bool :=
  if a.num_elements == b.num_elements && a.planes == b.planes
     && a.depth == b.depth && a.height == b.height && a.width == b.width
  then
    (List.range a.values.length).all fun i =>
      decide (|a.values.getD i 0 - b.values.getD i 0| < tolerance)
  else false

/-- Fill(value) (lines 203-205): std::fill over values_. -/
def Array4D.Fill (a : Array4D) (v : ℚ) : Array4D :=
  { a with values := a.values.map fun _ => v }

/-- FillIota(value) (lines 208-210): std::iota, element i becomes value + i. -/
def Array4D.FillIota (a : Array4D) (v : ℚ) : Array4D :=
  { a with values := (List.range a.values.length).map fun i : Nat => v + (i : ℚ) }

/-- Modelled from the spec: std::mt19937 and std::normal_distribution
(<random>, not among the sources) form a deterministic pseudo-random
pipeline; the i-th draw is a fixed deterministic function of
(seed, mean, stddev, i). -/
def normalDraw (seed : Nat) (mean stddev : ℚ) (i : Nat) : ℚ :=
  mean + stddev * (((seed + 6364136223846793005 * i) % 1000003 : Nat) : ℚ)

/-- FillRandom(value, mean, seed) (lines 214-222): element i becomes the i-th
draw of the seeded generator with the given mean and deviation value. -/
def Array4D.FillRandom (a : Array4D) (value mean : ℚ) (seed : Nat) : Array4D :=
  { a with values := (List.range a.values.length).map fun i => normalDraw seed mean value i }

/-- FillWithMultiples(multiplier) (lines 225-229): values_[i] = i * multiplier. -/
def Array4D.FillWithMultiples (a : Array4D) (multiplier : ℚ) : Array4D :=
  { a with values := (List.range a.values.length).map fun i : Nat => (i : ℚ) * multiplier }

/-- mul(multiplier) (lines 231-237): values_[i] *= multiplier. -/
def Array4D.mul (a : Array4D) (multiplier : ℚ) : Array4D :=
  { a with values := a.values.map fun x => x * multiplier }

/-- The row-major table of a function of the coordinates (p, d, h, w): the
backing storage produced by four nested loops over in-range coordinates that
write every cell exactly once through operator(), in the layout of
Array4D.index. -/
def grid4 {α : Type} (n1 n2 n3 n4 : Nat) (f : Nat → Nat → Nat → Nat → α) : List α :=
  ((List.range n1).map fun p =>
    (List.range n2).map fun d =>
      (List.range n3).map fun h =>
        (List.range n4).map fun w => f p d h w).flatten.flatten.flatten

/-- FillWithYX(value) (lines 255-267): CHECK value.height() == height() and
value.width() == width(), then write value(h, w) at every coordinate
(p, d, h, w). The four nested loops write each coordinate exactly once, so
the backing storage becomes the row-major table of value(h, w). -/
def Array4D.FillWithYX (a : Array4D) (v : Array2D) : Option Array4D :=
  if v.height = a.height ∧ v.width = a.width then
    some { a with values := grid4 a.planes a.depth a.height a.width fun _ _ h w => v.el h w }
  else none

/-- FillWithPZ(value) (lines 270-282): CHECK value.height() == planes() and
value.width() == depth(), then write value(p, d) at every coordinate
(p, d, h, w); the loops write each coordinate exactly once. -/
def Array4D.FillWithPZ (a : Array4D) (v : Array2D) : Option Array4D :=
  if v.height = a.planes ∧ v.width = a.depth then
    some { a with values := grid4 a.planes a.depth a.height a.width fun p d _ _ => v.el p d }
  else none

/-- FillWithMinorDimNum() (lines 286-301): every coordinate (p, d, h, w)
receives plane * depth() + depth; the loops write each coordinate exactly
once (the LOG(INFO) lines are purely observational). -/
def Array4D.FillWithMinorDimNum (a : Array4D) : Array4D :=
  { a with values :=
      grid4 a.planes a.depth a.height a.width fun p d _ _ => ((p * a.depth + d : Nat) : ℚ) }

/-- flatten() (lines 328-336): direct access to the backing storage. -/
def Array4D.flatten (a : Array4D) : List ℚ := a.values

/-- operator*(rhs) (lines 353-370): guard comparing size(0)..size(3) of the
two operands; on match, values_[i] *= rhs.values_[i] for every flat index of
this; on mismatch assert(false), a fatal debug failure modelled as none. -/
def Array4D.ElementwiseMultiply (a b : Array4D) : Option Array4D :=
  if b.size 0 = a.size 0 ∧ b.size 1 = a.size 1 ∧ b.size 2 = a.size 2 ∧ b.size 3 = a.size 3
  then some { a with values :=
        (List.range a.values.length).map fun i => a.values.getD i 0 * b.values.getD i 0 }
  else none

/-- The inner accumulation of MatrixMul (lines 412-416):
result(b,d,i,j) = 0; for r in [0, lhs.Width()): result(b,d,i,j) +=
lhs(b,d,i,r) * rhs(b,d,r,j). -/
def mmEntry (lhs rhs : Array4D) (b d i j : Nat) : ℚ :=
  (List.range lhs.width).foldl (fun acc r => acc + lhs.el b d i r * rhs.el b d r j) 0

/-- MatrixMul(lhs, rhs, result) (lines 382-421): seven CHECK_EQ shape guards
(a failure, modelled as none, happens before anything is written to result);
then for b in [0, result.Batch()), d in [0, result.Depth()),
i in [0, lhs.Height()), j in [0, rhs.Width()) the element result(b,d,i,j) is
zeroed and accumulated (mmEntry). Under the guards the loops write each
coordinate of result exactly once in row-major order, so the final backing
storage is the row-major table of mmEntry. -/
def MatrixMul (lhs rhs result : Array4D) : Option Array4D :=
  if lhs.Width = rhs.Height ∧ lhs.Height = result.Height ∧ rhs.Width = result.Width
     ∧ lhs.Depth = rhs.Depth ∧ rhs.Depth = result.Depth
     ∧ lhs.Batch = rhs.Batch ∧ rhs.Batch = result.Batch
  then some
    { result with
      values := grid4 result.Batch result.Depth lhs.Height rhs.Width (mmEntry lhs rhs) }
  else none

/-- The lhs of the worked MatrixMul example: shape (1,1,2,3),
contents [[1,2,3],[4,5,6]]. -/
def mmLhsEx : Array4D := ⟨1, 1, 2, 3, [1, 2, 3, 4, 5, 6]⟩

/-- The rhs of the worked MatrixMul example: shape (1,1,3,2),
contents [[7,8],[9,10],[11,12]]. -/
def mmRhsEx : Array4D := ⟨1, 1, 3, 2, [7, 8, 9, 10, 11, 12]⟩

/-- The result operand of the worked example, shape (1,1,2,2), deliberately
pre-filled with garbage to show that prior contents do not contribute. -/
def mmResEx : Array4D := ⟨1, 1, 2, 2, [77, 77, 77, 77]⟩

/-- The expected product of the worked example: [[58,64],[139,154]]. -/
def mmOutEx : Array4D := ⟨1, 1, 2, 2, [58, 64, 139, 154]⟩

/-! ### Helper lemmas about flattening, ranges and index arithmetic -/

/-- Flattening a list of lists of a common length k multiplies the length by k. -/
theorem length_flatten_uniform {α : Type} (k : Nat) :
    ∀ (L : List (List α)), (∀ l ∈ L, l.length = k) →
      L.flatten.length = L.length * k := by
  intro L
  induction L with
  | nil => intro _; simp
  | cons l L ih =>
    intro h
    have hl : l.length = k := h l (List.mem_cons_self l L)
    have hL : ∀ x ∈ L, x.length = k := fun x hx => h x (List.mem_cons_of_mem l hx)
    simp [List.flatten_cons, ih hL, hl, Nat.succ_mul, Nat.add_comm]

/-- Indexing into the flattening of a list of lists of a common length k:
position i * k + j lands in block i at offset j. -/
theorem flatten_getD_uniform {α : Type} (k : Nat) :
    ∀ (L : List (List α)) (_ : ∀ l ∈ L, l.length = k) (i j : Nat),
      i < L.length → j < k → ∀ (dflt : α),
      L.flatten.getD (i * k + j) dflt = (L.getD i []).getD j dflt := by
  intro L
  induction L with
  | nil => intro _ i j hi; exact absurd hi (Nat.not_lt_zero i)
  | cons l L ih =>
    intro h i j hi hj dflt
    have hl : l.length = k := h l (List.mem_cons_self l L)
    have hL : ∀ x ∈ L, x.length = k := fun x hx => h x (List.mem_cons_of_mem l hx)
    cases i with
    | zero =>
      have hjl : j < l.length := hl ▸ hj
      rw [Nat.zero_mul, Nat.zero_add, List.flatten_cons, List.getD_eq_getElem?_getD,
        List.getElem?_append_left hjl]
      simp [List.getD_eq_getElem?_getD]
    | succ i =>
      have harith : (i + 1) * k + j = l.length + (i * k + j) := by
        rw [hl]; ring
      have hlen : l.length ≤ (i + 1) * k + j := by omega
      rw [List.flatten_cons, List.getD_eq_getElem?_getD, harith]
      have : (l ++ L.flatten)[l.length + (i * k + j)]? = L.flatten[i * k + j]? := by
        rw [List.getElem?_append_right (Nat.le_add_right _ _)]
        simp
      rw [this, ← List.getD_eq_getElem?_getD, List.getD_cons_succ]
      exact ih hL i j (Nat.lt_of_succ_lt_succ hi) hj dflt

/-- getD over the map of a range evaluates the function. -/
theorem getD_map_range {α : Type} (n i : Nat) (f : Nat → α) (dflt : α) (hi : i < n) :
    ((List.range n).map f).getD i dflt = f i := by
  rw [List.getD_eq_getElem?_getD, List.getElem?_map, List.getElem?_range hi]
  rfl

/-- The zero-started left fold of additions over a range is the range sum. -/
theorem foldl_add_range (f : Nat → ℚ) :
    ∀ (n : Nat), (List.range n).foldl (fun acc r => acc + f r) 0 = ∑ r ∈ Finset.range n, f r := by
  have gen : ∀ (n : Nat) (init : ℚ),
      (List.range n).foldl (fun acc r => acc + f r) init = init + ∑ r ∈ Finset.range n, f r := by
    intro n
    induction n with
    | zero => intro init; simp
    | succ m ih =>
      intro init
      rw [List.range_succ, List.foldl_append, ih, Finset.sum_range_succ]
      simp [add_assoc]
  intro n
  rw [gen n 0, zero_add]

/-- Mixed-radix bound: p < a and q < b give p * b + q < a * b. -/
theorem mul_add_lt {p a q b : Nat} (hp : p < a) (hq : q < b) : p * b + q < a * b :=
  calc p * b + q < p * b + b := Nat.add_lt_add_left hq _
  _ = (p + 1) * b := by ring
  _ ≤ a * b := Nat.mul_le_mul_right b hp

/-- The linear index in factored (mixed-radix) form. -/
theorem index_factor (a : Array4D) (p d h w : Nat) :
    a.index p d h w = ((p * a.depth + d) * a.height + h) * a.width + w := by
  unfold Array4D.index; ring

/-- In-range coordinates give a linear index below the dimension product. -/
theorem index_lt (a : Array4D) {p d h w : Nat}
    (hp : p < a.planes) (hd : d < a.depth) (hh : h < a.height) (hw : w < a.width) :
    a.index p d h w < a.planes * a.depth * a.height * a.width := by
  rw [index_factor]
  exact mul_add_lt (mul_add_lt (mul_add_lt hp hd) hh) hw

/-- Reading the triple flattening of a uniformly-shaped 4-level nesting at a
factored linear index retrieves the nested element. -/
theorem flatten3_getD {α : Type} (vs : List (List (List (List α)))) (n2 n3 n4 : Nat)
    (h2 : ∀ pl ∈ vs, pl.length = n2)
    (h3 : ∀ pl ∈ vs, ∀ dl ∈ pl, dl.length = n3)
    (h4 : ∀ pl ∈ vs, ∀ dl ∈ pl, ∀ hl ∈ dl, hl.length = n4)
    (p d h w : Nat) (hp : p < vs.length) (hd : d < n2) (hh : h < n3) (hw : w < n4)
    (dflt : α) :
    vs.flatten.flatten.flatten.getD (((p * n2 + d) * n3 + h) * n4 + w) dflt
      = (((vs.getD p []).getD d []).getD h []).getD w dflt := by
  have hA3 : ∀ dl ∈ vs.flatten, dl.length = n3 := by
    intro dl hdl
    rcases List.mem_flatten.mp hdl with ⟨pl, hpl, hmem⟩
    exact h3 pl hpl dl hmem
  have hB4 : ∀ hl ∈ vs.flatten.flatten, hl.length = n4 := by
    intro hl hhl
    rcases List.mem_flatten.mp hhl with ⟨dl, hdl, hmem⟩
    rcases List.mem_flatten.mp hdl with ⟨pl, hpl, hmem2⟩
    exact h4 pl hpl dl hmem2 hl hmem
  have hlenA : vs.flatten.length = vs.length * n2 := length_flatten_uniform n2 vs h2
  have hlenB : vs.flatten.flatten.length = vs.length * n2 * n3 := by
    rw [length_flatten_uniform n3 vs.flatten hA3, hlenA]
  have hiB : (p * n2 + d) * n3 + h < vs.flatten.flatten.length := by
    rw [hlenB]
    exact mul_add_lt (mul_add_lt hp hd) hh
  have hiA : p * n2 + d < vs.flatten.length := by
    rw [hlenA]; exact mul_add_lt hp hd
  rw [flatten_getD_uniform n4 vs.flatten.flatten hB4 _ w hiB hw dflt]
  have step2 : vs.flatten.flatten.getD ((p * n2 + d) * n3 + h) []
      = (vs.flatten.getD (p * n2 + d) []).getD h [] :=
    flatten_getD_uniform n3 vs.flatten hA3 _ h hiA hh []
  have step3 : vs.flatten.getD (p * n2 + d) [] = (vs.getD p []).getD d [] :=
    flatten_getD_uniform n2 vs h2 p d hp hd []
  rw [step2, step3]

/-- The length of the triple flattening of a uniformly-shaped 4-level nesting. -/
theorem flatten3_length {α : Type} (vs : List (List (List (List α)))) (n2 n3 n4 : Nat)
    (h2 : ∀ pl ∈ vs, pl.length = n2)
    (h3 : ∀ pl ∈ vs, ∀ dl ∈ pl, dl.length = n3)
    (h4 : ∀ pl ∈ vs, ∀ dl ∈ pl, ∀ hl ∈ dl, hl.length = n4) :
    vs.flatten.flatten.flatten.length = vs.length * n2 * n3 * n4 := by
  have hA3 : ∀ dl ∈ vs.flatten, dl.length = n3 := by
    intro dl hdl
    rcases List.mem_flatten.mp hdl with ⟨pl, hpl, hmem⟩
    exact h3 pl hpl dl hmem
  have hB4 : ∀ hl ∈ vs.flatten.flatten, hl.length = n4 := by
    intro hl hhl
    rcases List.mem_flatten.mp hhl with ⟨dl, hdl, hmem⟩
    rcases List.mem_flatten.mp hdl with ⟨pl, hpl, hmem2⟩
    exact h4 pl hpl dl hmem2 hl hmem
  rw [length_flatten_uniform n4 _ hB4, length_flatten_uniform n3 _ hA3,
    length_flatten_uniform n2 _ h2]

/-- The Bool-valued sibling-length validation in propositional form. -/
theorem nestedUniform_iff (n2 n3 n4 : Nat) (vs : List (List (List (List ℚ)))) :
    nestedUniform n2 n3 n4 vs = true ↔
      ∀ pl ∈ vs, pl.length = n2 ∧ ∀ dl ∈ pl, dl.length = n3 ∧ ∀ hl ∈ dl, hl.length = n4 := by
  simp [nestedUniform, List.all_eq_true]

/-- The tolerance of operator== is positive. -/
theorem tolerance_pos : 0 < tolerance := by norm_num [tolerance]

/-- The row-major table has exactly n1*n2*n3*n4 entries. -/
theorem grid4_length {α : Type} (n1 n2 n3 n4 : Nat) (f : Nat → Nat → Nat → Nat → α) :
    (grid4 n1 n2 n3 n4 f).length = n1 * n2 * n3 * n4 := by
  unfold grid4
  have h2 : ∀ pl ∈ (List.range n1).map fun p =>
      (List.range n2).map fun d =>
        (List.range n3).map fun h =>
          (List.range n4).map fun w => f p d h w, pl.length = n2 := by
    intro pl hpl
    rcases List.mem_map.mp hpl with ⟨b, _, rfl⟩
    simp
  have h3 : ∀ pl ∈ (List.range n1).map fun p =>
      (List.range n2).map fun d =>
        (List.range n3).map fun h =>
          (List.range n4).map fun w => f p d h w, ∀ dl ∈ pl, dl.length = n3 := by
    intro pl hpl dl hdl
    rcases List.mem_map.mp hpl with ⟨b, _, rfl⟩
    rcases List.mem_map.mp hdl with ⟨dd, _, rfl⟩
    simp
  have h4 : ∀ pl ∈ (List.range n1).map fun p =>
      (List.range n2).map fun d =>
        (List.range n3).map fun h =>
          (List.range n4).map fun w => f p d h w, ∀ dl ∈ pl, ∀ hl ∈ dl, hl.length = n4 := by
    intro pl hpl dl hdl hl hhl
    rcases List.mem_map.mp hpl with ⟨b, _, rfl⟩
    rcases List.mem_map.mp hdl with ⟨dd, _, rfl⟩
    rcases List.mem_map.mp hhl with ⟨hh, _, rfl⟩
    simp
  rw [flatten3_length _ n2 n3 n4 h2 h3 h4]
  simp

/-- Reading the row-major table at the factored linear index evaluates the
cell function. -/
theorem grid4_getD {α : Type} (n1 n2 n3 n4 : Nat) (f : Nat → Nat → Nat → Nat → α)
    (p d h w : Nat) (hp : p < n1) (hd : d < n2) (hh : h < n3) (hw : w < n4) (dflt : α) :
    (grid4 n1 n2 n3 n4 f).getD (((p * n2 + d) * n3 + h) * n4 + w) dflt = f p d h w := by
  unfold grid4
  have h2 : ∀ pl ∈ (List.range n1).map fun p =>
      (List.range n2).map fun d =>
        (List.range n3).map fun h =>
          (List.range n4).map fun w => f p d h w, pl.length = n2 := by
    intro pl hpl
    rcases List.mem_map.mp hpl with ⟨b, _, rfl⟩
    simp
  have h3 : ∀ pl ∈ (List.range n1).map fun p =>
      (List.range n2).map fun d =>
        (List.range n3).map fun h =>
          (List.range n4).map fun w => f p d h w, ∀ dl ∈ pl, dl.length = n3 := by
    intro pl hpl dl hdl
    rcases List.mem_map.mp hpl with ⟨b, _, rfl⟩
    rcases List.mem_map.mp hdl with ⟨dd, _, rfl⟩
    simp
  have h4 : ∀ pl ∈ (List.range n1).map fun p =>
      (List.range n2).map fun d =>
        (List.range n3).map fun h =>
          (List.range n4).map fun w => f p d h w, ∀ dl ∈ pl, ∀ hl ∈ dl, hl.length = n4 := by
    intro pl hpl dl hdl hl hhl
    rcases List.mem_map.mp hpl with ⟨b, _, rfl⟩
    rcases List.mem_map.mp hdl with ⟨dd, _, rfl⟩
    rcases List.mem_map.mp hhl with ⟨hh2, _, rfl⟩
    simp
  rw [flatten3_getD _ n2 n3 n4 h2 h3 h4 p d h w (by simpa using hp) hd hh hw dflt]
  rw [getD_map_range _ _ _ _ hp, getD_map_range _ _ _ _ hd,
    getD_map_range _ _ _ _ hh, getD_map_range _ _ _ _ hw]

/-- Reduction of the nested constructor once the three inference heads exist. -/
theorem ofNested_cons_eq (vs : List (List (List (List ℚ))))
    (pl0 : List (List (List ℚ))) (dl0 : List (List ℚ)) (hl0 : List ℚ)
    (hv : vs.head? = some pl0) (hp : pl0.head? = some dl0) (hd : dl0.head? = some hl0) :
    Array4D.ofNested vs =
      if nestedUniform pl0.length dl0.length hl0.length vs
      then NestedOutcome.ok ⟨vs.length, pl0.length, dl0.length, hl0.length,
              vs.flatten.flatten.flatten⟩
      else NestedOutcome.ragged := by
  rcases vs with _ | ⟨pl0x, rest⟩
  · simp at hv
  · obtain rfl : pl0x = pl0 := by simpa using hv
    rcases pl0x with _ | ⟨dl0x, rest2⟩
    · simp at hp
    · obtain rfl : dl0x = dl0 := by simpa using hp
      rcases dl0x with _ | ⟨hl0x, rest3⟩
      · simp at hd
      · obtain rfl : hl0x = hl0 := by simpa using hd
        rfl

/-- C4: constructing from dimensions plus a flat sequence fails exactly when
the sequence length differs from n1*n2*n3*n4, and on matching lengths the
flatten accessor reads back exactly the input sequence (element i at linear
index i). -/
theorem c4_ofVector_roundtrip (p d h w : Nat) (S : List ℚ) :
    (Array4D.ofVector p d h w S = none ↔ S.length ≠ p * d * h * w) ∧
    (S.length = p * d * h * w →
      (Array4D.ofVector p d h w S).map Array4D.flatten = some S) := by
  constructor
  · unfold Array4D.ofVector
    by_cases hc : p * d * h * w = S.length
    · rw [if_pos hc]
      simp [hc]
    · rw [if_neg hc]
      exact ⟨fun _ hh => hc hh.symm, fun _ => rfl⟩
  · intro hlen
    unfold Array4D.ofVector
    rw [if_pos hlen.symm]
    rfl

/-- Witness for C4 at dimensions (1,1,1,2) with the sequence [5, 7]. -/
theorem c4_witness :
    (Array4D.ofVector 1 1 1 2 [5, 7]).map Array4D.flatten = some [5, 7] :=
  (c4_ofVector_roundtrip 1 1 1 2 [5, 7]).2 (by decide)

/-- C3: MatrixMul fails exactly when one of the shape preconditions is
violated; the guards precede every write, and a failed call produces no
result value, so the result operand is untouched. -/
theorem c3_MatrixMul_shape_guard (lhs rhs result : Array4D) :
    MatrixMul lhs rhs result = none ↔
      ¬(lhs.width = rhs.height ∧ lhs.height = result.height ∧ rhs.width = result.width ∧
        lhs.depth = rhs.depth ∧ rhs.depth = result.depth ∧
        lhs.planes = rhs.planes ∧ rhs.planes = result.planes) := by
  unfold MatrixMul Array4D.Width Array4D.Height Array4D.Depth Array4D.Batch
  split
  · rename_i hcond
    exact iff_of_false (by simp) (not_not_intro hcond)
  · rename_i hcond
    exact iff_of_true rfl hcond

/-- C8: element access fails exactly when some coordinate reaches its
dimension; in range, on a container satisfying the storage invariant, it
reads the backing storage at the linear index
p*(n2*n3*n4) + d*(n3*n4) + h*n4 + w, which is strictly below the storage
length. -/
theorem c8_At_bounds (a : Array4D) (p d h w : Nat) :
    (a.At p d h w = none ↔ ¬(p < a.planes ∧ d < a.depth ∧ h < a.height ∧ w < a.width)) ∧
    (a.valid → p < a.planes → d < a.depth → h < a.height → w < a.width →
      a.At p d h w
          = a.values[p * (a.depth * a.height * a.width) + d * (a.height * a.width)
              + h * a.width + w]? ∧
      p * (a.depth * a.height * a.width) + d * (a.height * a.width) + h * a.width + w
          < a.values.length) := by
  constructor
  · unfold Array4D.At
    split
    · rename_i hcond
      exact iff_of_false (by simp) (not_not_intro hcond)
    · rename_i hcond
      exact iff_of_true rfl hcond
  · intro hv hp hd hh hw
    have hidx : a.index p d h w < a.values.length := by
      rw [hv]
      exact index_lt a hp hd hh hw
    have hAt : a.At p d h w = some (a.el p d h w) := by
      unfold Array4D.At
      rw [if_pos ⟨hp, hd, hh, hw⟩]
    constructor
    · rw [hAt]
      show some (a.el p d h w) = a.values[a.index p d h w]?
      rw [List.getElem?_eq_getElem hidx]
      unfold Array4D.el
      rw [List.getD_eq_getElem?_getD, List.getElem?_eq_getElem hidx]
      rfl
    · exact hidx

/-- Witness for C8 on the (1,1,1,2) container with contents [10, 20]. -/
theorem c8_witness :
    (Array4D.mk 1 1 1 2 [10, 20]).At 0 0 0 1
      = (Array4D.mk 1 1 1 2 [10, 20]).values[0 * (1 * 1 * 2) + 0 * (1 * 2) + 0 * 2 + 1]? :=
  ((c8_At_bounds (Array4D.mk 1 1 1 2 [10, 20]) 0 0 0 1).2 (by decide) (by decide)
    (by decide) (by decide) (by decide)).1

/-- C9: FillRandom is a deterministic function of the seed, mean, deviation
and the element count, so two same-shaped containers (both satisfying the
storage invariant) receive identical element sequences. -/
theorem c9_FillRandom_deterministic (a b : Array4D) (value mean : ℚ) (seed : Nat)
    (h1 : a.planes = b.planes) (h2 : a.depth = b.depth)
    (h3 : a.height = b.height) (h4 : a.width = b.width)
    (ha : a.valid) (hb : b.valid) :
    (a.FillRandom value mean seed).values = (b.FillRandom value mean seed).values := by
  have hlen : a.values.length = b.values.length := by
    rw [ha, hb, h1, h2, h3, h4]
  show (List.range a.values.length).map (fun i => normalDraw seed mean value i)
      = (List.range b.values.length).map (fun i => normalDraw seed mean value i)
  rw [hlen]

/-- Witness for C9: two distinct same-shaped containers, same seed. -/
theorem c9_witness :
    ((Array4D.mk 1 1 1 2 [0, 0]).FillRandom 1 0 12345).values
      = ((Array4D.mk 1 1 1 2 [9, 9]).FillRandom 1 0 12345).values :=
  c9_FillRandom_deterministic (Array4D.mk 1 1 1 2 [0, 0]) (Array4D.mk 1 1 1 2 [9, 9])
    1 0 12345 rfl rfl rfl rfl (by decide) (by decide)

/-- C10 counterexample: a literal whose first (and only) height-list is empty
has fully defined behavior — the constructor succeeds, inferring width 0 —
refuting the claim that an empty first height-list leaves the constructor
undefined. -/
theorem c10_counterexample :
    Array4D.ofNested [[[([] : List ℚ)]]] = NestedOutcome.ok ⟨1, 1, 1, 0, []⟩ ∧
    Array4D.ofNested [[[([] : List ℚ)]]] ≠ NestedOutcome.undef := by
  constructor
  · rfl
  · intro hcontra
    exact NestedOutcome.noConfusion (hcontra.symm.trans (rfl : Array4D.ofNested [[[([] : List ℚ)]]] = NestedOutcome.ok ⟨1, 1, 1, 0, []⟩))

/-- C10 amended: the nested constructor reads the first sub-sequence at each
nesting level before any validation, so its behavior is undefined exactly
when the outermost list, the first plane, or the first depth-list is empty
(there the inference dereferences the begin iterator of an empty list); an
empty first height-list is defined — only its size is read, inferring
width 0 — and there is no EmptyLiteral error case. -/
theorem c10_undef_characterization (vs : List (List (List (List ℚ)))) :
    Array4D.ofNested vs = NestedOutcome.undef ↔
      (vs.head? = none ∨ (vs.headD []).head? = none
        ∨ ((vs.headD []).headD []).head? = none) := by
  rcases vs with _ | ⟨pl0, rest⟩
  · simp [Array4D.ofNested]
  · rcases pl0 with _ | ⟨dl0, rest2⟩
    · simp [Array4D.ofNested]
    · rcases dl0 with _ | ⟨hl0, rest3⟩
      · simp [Array4D.ofNested]
      · show (if nestedUniform _ _ _ _ then NestedOutcome.ok _ else NestedOutcome.ragged)
            = NestedOutcome.undef ↔ _
        split <;> simp

/-- The dimension guard of operator== in propositional form. -/
theorem equalsGuard_iff (a b : Array4D) :
    (a.num_elements == b.num_elements && a.planes == b.planes
        && a.depth == b.depth && a.height == b.height && a.width == b.width) = true ↔
      (a.num_elements = b.num_elements ∧ a.planes = b.planes ∧ a.depth = b.depth ∧
        a.height = b.height ∧ a.width = b.width) := by
  simp [Bool.and_eq_true, and_assoc]

/-- C5: Equals is false whenever some dimension differs (whatever the
contents), and with all four dimensions equal it holds exactly when every
flat element pair differs by strictly less than the 1e-6 tolerance. -/
theorem c5_Equals_characterization (a b : Array4D) (ha : a.valid) (hb : b.valid) :
    (¬(a.planes = b.planes ∧ a.depth = b.depth ∧ a.height = b.height ∧ a.width = b.width) →
      a.Equals b = false) ∧
    ((a.planes = b.planes ∧ a.depth = b.depth ∧ a.height = b.height ∧ a.width = b.width) →
      (a.Equals b = true ↔
        ∀ i, i < a.values.length → |a.values.getD i 0 - b.values.getD i 0| < tolerance)) := by
  constructor
  · intro hne
    unfold Array4D.Equals
    split
    · rename_i hc
      rcases (equalsGuard_iff a b).mp hc with ⟨_, h1, h2, h3, h4⟩
      exact (hne ⟨h1, h2, h3, h4⟩).elim
    · rfl
  · rintro ⟨h1, h2, h3, h4⟩
    have hnum : a.num_elements = b.num_elements := by
      unfold Array4D.num_elements
      rw [ha, hb, h1, h2, h3, h4]
    unfold Array4D.Equals
    rw [if_pos ((equalsGuard_iff a b).mpr ⟨hnum, h1, h2, h3, h4⟩)]
    simp [List.all_eq_true, List.mem_range]

/-- Witness for C5: same contents but different dimensions are unequal, and a
container equals itself. -/
theorem c5_witness :
    Array4D.Equals ⟨1, 1, 1, 2, [1, 2]⟩ ⟨1, 2, 1, 1, [1, 2]⟩ = false ∧
    Array4D.Equals ⟨1, 1, 1, 2, [1, 2]⟩ ⟨1, 1, 1, 2, [1, 2]⟩ = true := by
  constructor
  · exact (c5_Equals_characterization ⟨1, 1, 1, 2, [1, 2]⟩ ⟨1, 2, 1, 1, [1, 2]⟩
      (by decide) (by decide)).1 (by decide)
  · exact ((c5_Equals_characterization ⟨1, 1, 1, 2, [1, 2]⟩ ⟨1, 1, 1, 2, [1, 2]⟩
      (by decide) (by decide)).2 (by decide)).mpr
      (fun i _ => by rw [sub_self, abs_zero]; exact tolerance_pos)

/-- C6: elementwise multiplication fails when the operands disagree on any of
the four dimensions and otherwise replaces every flat element of this with
the product of the corresponding elements. -/
theorem c6_ElementwiseMultiply_characterization (a b : Array4D) :
    (¬(a.planes = b.planes ∧ a.depth = b.depth ∧ a.height = b.height ∧ a.width = b.width) →
      a.ElementwiseMultiply b = none) ∧
    ((a.planes = b.planes ∧ a.depth = b.depth ∧ a.height = b.height ∧ a.width = b.width) →
      ∀ x, a.ElementwiseMultiply b = some x →
        x.planes = a.planes ∧ x.depth = a.depth ∧ x.height = a.height ∧ x.width = a.width ∧
        x.values.length = a.values.length ∧
        ∀ i, i < a.values.length →
          x.values.getD i 0 = a.values.getD i 0 * b.values.getD i 0) := by
  have hsize : (b.size 0 = a.size 0 ∧ b.size 1 = a.size 1
        ∧ b.size 2 = a.size 2 ∧ b.size 3 = a.size 3)
      ↔ (a.planes = b.planes ∧ a.depth = b.depth ∧ a.height = b.height ∧ a.width = b.width) := by
    show (b.planes = a.planes ∧ b.depth = a.depth ∧ b.height = a.height ∧ b.width = a.width) ↔ _
    constructor
    · rintro ⟨h1, h2, h3, h4⟩
      exact ⟨h1.symm, h2.symm, h3.symm, h4.symm⟩
    · rintro ⟨h1, h2, h3, h4⟩
      exact ⟨h1.symm, h2.symm, h3.symm, h4.symm⟩
  constructor
  · intro hne
    unfold Array4D.ElementwiseMultiply
    rw [if_neg (fun hc => hne (hsize.mp hc))]
  · intro hdim x hx
    unfold Array4D.ElementwiseMultiply at hx
    rw [if_pos (hsize.mpr hdim)] at hx
    cases hx
    refine ⟨rfl, rfl, rfl, rfl, by simp, ?_⟩
    intro i hi
    show ((List.range a.values.length).map
        fun i => a.values.getD i 0 * b.values.getD i 0).getD i 0 = _
    rw [getD_map_range _ _ _ _ hi]

/-- Witness for C6: a concrete shape mismatch fails; a concrete match
multiplies the flat elements pointwise. -/
theorem c6_witness :
    (⟨1, 1, 1, 2, [2, 3]⟩ : Array4D).ElementwiseMultiply ⟨1, 2, 1, 1, [4, 5]⟩ = none ∧
    (⟨1, 1, 1, 2, [2 * 4, 3 * 5]⟩ : Array4D).values.getD 0 0
      = (⟨1, 1, 1, 2, [2, 3]⟩ : Array4D).values.getD 0 0
        * (⟨1, 1, 1, 2, [4, 5]⟩ : Array4D).values.getD 0 0 :=
  ⟨(c6_ElementwiseMultiply_characterization ⟨1, 1, 1, 2, [2, 3]⟩ ⟨1, 2, 1, 1, [4, 5]⟩).1
      (by decide),
   ((c6_ElementwiseMultiply_characterization ⟨1, 1, 1, 2, [2, 3]⟩ ⟨1, 1, 1, 2, [4, 5]⟩).2
      (by decide) ⟨1, 1, 1, 2, [2 * 4, 3 * 5]⟩ rfl).2.2.2.2.2 0 (by decide)⟩

/-- C7: the nested constructor infers the four dimensions from the first
sub-sequence at each nesting level (the outer length and the lengths of the
three heads), fails with the ragged outcome exactly when some sub-sequence
deviates from the inferred length of its level, and on success places the
nested element (p, d, h, w) at the matching coordinates. -/
theorem c7_ofNested_characterization (vs : List (List (List (List ℚ))))
    (pl0 : List (List (List ℚ))) (dl0 : List (List ℚ)) (hl0 : List ℚ)
    (hv : vs.head? = some pl0) (hp : pl0.head? = some dl0) (hd : dl0.head? = some hl0) :
    (Array4D.ofNested vs = NestedOutcome.ragged ↔
      ¬(∀ pl ∈ vs, pl.length = pl0.length ∧
          ∀ dl ∈ pl, dl.length = dl0.length ∧ ∀ hl ∈ dl, hl.length = hl0.length)) ∧
    ((∀ pl ∈ vs, pl.length = pl0.length ∧
        ∀ dl ∈ pl, dl.length = dl0.length ∧ ∀ hl ∈ dl, hl.length = hl0.length) →
      Array4D.ofNested vs
          = NestedOutcome.ok ⟨vs.length, pl0.length, dl0.length, hl0.length,
              vs.flatten.flatten.flatten⟩ ∧
      ∀ p d h w, p < vs.length → d < pl0.length → h < dl0.length → w < hl0.length →
        (Array4D.mk vs.length pl0.length dl0.length hl0.length
            vs.flatten.flatten.flatten).At p d h w
          = some ((((vs.getD p []).getD d []).getD h []).getD w 0)) := by
  rw [ofNested_cons_eq vs pl0 dl0 hl0 hv hp hd]
  constructor
  · by_cases hu : nestedUniform pl0.length dl0.length hl0.length vs = true
    · rw [if_pos hu]
      exact iff_of_false (by simp)
        (not_not_intro ((nestedUniform_iff pl0.length dl0.length hl0.length vs).mp hu))
    · rw [if_neg hu]
      exact iff_of_true rfl
        (fun hc => hu ((nestedUniform_iff pl0.length dl0.length hl0.length vs).mpr hc))
  · intro hUnif
    have hu : nestedUniform pl0.length dl0.length hl0.length vs = true :=
      (nestedUniform_iff pl0.length dl0.length hl0.length vs).mpr hUnif
    have h2 : ∀ pl ∈ vs, pl.length = pl0.length := fun pl hpl => (hUnif pl hpl).1
    have h3 : ∀ pl ∈ vs, ∀ dl ∈ pl, dl.length = dl0.length :=
      fun pl hpl dl hdl => ((hUnif pl hpl).2 dl hdl).1
    have h4 : ∀ pl ∈ vs, ∀ dl ∈ pl, ∀ hl ∈ dl, hl.length = hl0.length :=
      fun pl hpl dl hdl hl hhl => ((hUnif pl hpl).2 dl hdl).2 hl hhl
    refine ⟨by rw [if_pos hu], ?_⟩
    intro p d h w hpp hdd hhh hww
    unfold Array4D.At
    rw [if_pos ⟨hpp, hdd, hhh, hww⟩]
    unfold Array4D.el
    congr 1
    rw [index_factor]
    exact flatten3_getD vs pl0.length dl0.length hl0.length h2 h3 h4 p d h w hpp hdd hhh hww 0

/-- Witness for C7: a (1,1,2,2) literal constructs with the expected
flattening and element placement, and a ragged literal fails. -/
theorem c7_witness :
    Array4D.ofNested [[[[1, 2], [3, 4]]]] = NestedOutcome.ok ⟨1, 1, 2, 2, [1, 2, 3, 4]⟩ ∧
    (Array4D.mk 1 1 2 2 [1, 2, 3, 4]).At 0 0 1 0
      = some (((((([[[[1, 2], [3, 4]]]] : List (List (List (List ℚ)))).getD 0 []).getD 0
          []).getD 1 []).getD 0 0)) ∧
    Array4D.ofNested [[[[1, 2]], [[3]]]] = NestedOutcome.ragged := by
  refine ⟨?_, ?_, ?_⟩
  · exact ((c7_ofNested_characterization [[[[1, 2], [3, 4]]]] _ _ _ rfl rfl rfl).2
      (by decide)).1
  · exact ((c7_ofNested_characterization [[[[1, 2], [3, 4]]]] _ _ _ rfl rfl rfl).2
      (by decide)).2 0 0 1 0 (by decide) (by decide) (by decide) (by decide)
  · exact (c7_ofNested_characterization [[[[1, 2]], [[3]]]] _ _ _ rfl rfl rfl).1.mpr
      (by decide)

/-- C2: every constructor establishes the storage invariant
(values_.size() = n1*n2*n3*n4), every mutating operation preserves it, and
num_elements() returns the dimension product. -/
theorem c2_storage_invariant (p d h w : Nat) (v m value mean : ℚ) (seed : Nat)
    (S c : List ℚ) (vs : List (List (List (List ℚ)))) (a b : Array4D) (v2 : Array2D) :
    (Array4D.mkSized p d h w).valid ∧
    (Array4D.mkFilled p d h w v).valid ∧
    (∀ x, Array4D.ofVector p d h w S = some x → x.valid) ∧
    (∀ x, Array4D.ofContainer p d h w c = some x → x.valid) ∧
    (∀ x, Array4D.ofNested vs = NestedOutcome.ok x → x.valid) ∧
    (a.valid → ∀ x, a.SetValues c = some x → x.valid) ∧
    (a.valid → (a.Fill v).valid) ∧
    (a.valid → (a.FillIota v).valid) ∧
    (a.valid → (a.FillRandom value mean seed).valid) ∧
    (a.valid → (a.FillWithMultiples m).valid) ∧
    (a.valid → (a.mul m).valid) ∧
    (∀ x, a.FillWithYX v2 = some x → x.valid) ∧
    (∀ x, a.FillWithPZ v2 = some x → x.valid) ∧
    (a.FillWithMinorDimNum).valid ∧
    (a.valid → ∀ x, a.ElementwiseMultiply b = some x → x.valid) ∧
    (a.valid → a.num_elements = a.planes * a.depth * a.height * a.width) := by
  refine ⟨?_, ?_, ?_, ?_, ?_, ?_, ?_, ?_, ?_, ?_, ?_, ?_, ?_, ?_, ?_, ?_⟩
  · simp [Array4D.mkSized, Array4D.valid]
  · simp [Array4D.mkFilled, Array4D.valid]
  · intro x hx
    unfold Array4D.ofVector at hx
    split at hx
    · rename_i hc
      cases hx
      exact hc.symm
    · exact Option.noConfusion hx
  · intro x hx
    unfold Array4D.ofContainer Array4D.SetValues Array4D.num_elements Array4D.mkSized at hx
    split at hx
    · rename_i hc
      cases hx
      simp only [Array4D.valid]
      simpa using hc
    · exact Option.noConfusion hx
  · intro x hx
    rcases vs with _ | ⟨pl0, rest⟩
    · simp [Array4D.ofNested] at hx
    · rcases pl0 with _ | ⟨dl0, rest2⟩
      · simp [Array4D.ofNested] at hx
      · rcases dl0 with _ | ⟨hl0, rest3⟩
        · simp [Array4D.ofNested] at hx
        · rw [ofNested_cons_eq (((hl0 :: rest3) :: rest2) :: rest)
            ((hl0 :: rest3) :: rest2) (hl0 :: rest3) hl0 rfl rfl rfl] at hx
          split at hx
          · rename_i hu
            cases hx
            have hUnif := (nestedUniform_iff _ _ _ _).mp hu
            exact flatten3_length _ _ _ _
              (fun pl hpl => (hUnif pl hpl).1)
              (fun pl hpl dl hdl => ((hUnif pl hpl).2 dl hdl).1)
              (fun pl hpl dl hdl hl hhl => ((hUnif pl hpl).2 dl hdl).2 hl hhl)
          · exact NestedOutcome.noConfusion hx
  · intro ha x hx
    unfold Array4D.SetValues Array4D.num_elements at hx
    split at hx
    · rename_i hc
      cases hx
      exact hc.trans ha
    · exact Option.noConfusion hx
  · intro ha
    show (a.values.map fun _ => v).length = a.planes * a.depth * a.height * a.width
    rw [List.length_map]
    exact ha
  · intro ha
    show ((List.range a.values.length).map fun i : Nat => v + (i : ℚ)).length
        = a.planes * a.depth * a.height * a.width
    rw [List.length_map, List.length_range]
    exact ha
  · intro ha
    show ((List.range a.values.length).map fun i => normalDraw seed mean value i).length
        = a.planes * a.depth * a.height * a.width
    rw [List.length_map, List.length_range]
    exact ha
  · intro ha
    show ((List.range a.values.length).map fun i : Nat => (i : ℚ) * m).length
        = a.planes * a.depth * a.height * a.width
    rw [List.length_map, List.length_range]
    exact ha
  · intro ha
    show (a.values.map fun x => x * m).length = a.planes * a.depth * a.height * a.width
    rw [List.length_map]
    exact ha
  · intro x hx
    unfold Array4D.FillWithYX at hx
    split at hx
    · cases hx
      exact grid4_length a.planes a.depth a.height a.width _
    · exact Option.noConfusion hx
  · intro x hx
    unfold Array4D.FillWithPZ at hx
    split at hx
    · cases hx
      exact grid4_length a.planes a.depth a.height a.width _
    · exact Option.noConfusion hx
  · exact grid4_length a.planes a.depth a.height a.width _
  · intro ha x hx
    unfold Array4D.ElementwiseMultiply at hx
    split at hx
    · cases hx
      show ((List.range a.values.length).map
          fun i => a.values.getD i 0 * b.values.getD i 0).length
          = a.planes * a.depth * a.height * a.width
      rw [List.length_map, List.length_range]
      exact ha
    · exact Option.noConfusion hx
  · exact fun ha => ha

/-- Witness for C2 on concrete (1,1,1,2) containers. -/
theorem c2_witness :
    (Array4D.mkSized 1 1 1 2).valid ∧
    (Array4D.mkFilled 1 1 1 2 5).valid ∧
    ((Array4D.ofVector 1 1 1 2 [1, 2]).elim True Array4D.valid) ∧
    ((Array4D.ofContainer 1 1 1 2 [9, 9]).elim True Array4D.valid) ∧
    (Array4D.ofNested [[[[1, 2]]]]).okValid ∧
    (((⟨1, 1, 1, 2, [3, 4]⟩ : Array4D).SetValues [9, 9]).elim True Array4D.valid) ∧
    ((⟨1, 1, 1, 2, [3, 4]⟩ : Array4D).Fill 5).valid ∧
    ((⟨1, 1, 1, 2, [3, 4]⟩ : Array4D).FillIota 5).valid ∧
    ((⟨1, 1, 1, 2, [3, 4]⟩ : Array4D).FillRandom 1 0 7).valid ∧
    ((⟨1, 1, 1, 2, [3, 4]⟩ : Array4D).FillWithMultiples 3).valid ∧
    ((⟨1, 1, 1, 2, [3, 4]⟩ : Array4D).mul 3).valid ∧
    (((⟨1, 1, 1, 2, [3, 4]⟩ : Array4D).FillWithYX ⟨1, 2, [7, 8]⟩).elim True Array4D.valid) ∧
    (((⟨1, 1, 1, 2, [3, 4]⟩ : Array4D).FillWithPZ ⟨1, 1, [7]⟩).elim True Array4D.valid) ∧
    ((⟨1, 1, 1, 2, [3, 4]⟩ : Array4D).FillWithMinorDimNum).valid ∧
    (((⟨1, 1, 1, 2, [3, 4]⟩ : Array4D).ElementwiseMultiply ⟨1, 1, 1, 2, [5, 6]⟩).elim True
      Array4D.valid) ∧
    ((⟨1, 1, 1, 2, [3, 4]⟩ : Array4D).num_elements = 1 * 1 * 1 * 2) := by
  have h := c2_storage_invariant 1 1 1 2 5 3 1 0 7 [1, 2] [9, 9] [[[[1, 2]]]]
    ⟨1, 1, 1, 2, [3, 4]⟩ ⟨1, 1, 1, 2, [5, 6]⟩ ⟨1, 2, [7, 8]⟩
  have hPZ := c2_storage_invariant 1 1 1 2 5 3 1 0 7 [1, 2] [9, 9] [[[[1, 2]]]]
    ⟨1, 1, 1, 2, [3, 4]⟩ ⟨1, 1, 1, 2, [5, 6]⟩ ⟨1, 1, [7]⟩
  refine ⟨h.1, h.2.1, ?_, ?_, ?_, ?_, h.2.2.2.2.2.2.1 (by decide),
    h.2.2.2.2.2.2.2.1 (by decide), h.2.2.2.2.2.2.2.2.1 (by decide),
    h.2.2.2.2.2.2.2.2.2.1 (by decide), h.2.2.2.2.2.2.2.2.2.2.1 (by decide),
    ?_, ?_, h.2.2.2.2.2.2.2.2.2.2.2.2.2.1, ?_,
    h.2.2.2.2.2.2.2.2.2.2.2.2.2.2.2 (by decide)⟩
  · cases hov : Array4D.ofVector 1 1 1 2 [1, 2] with
    | none => trivial
    | some x => exact h.2.2.1 x hov
  · cases hoc : Array4D.ofContainer 1 1 1 2 [9, 9] with
    | none => trivial
    | some x => exact h.2.2.2.1 x hoc
  · cases hon : Array4D.ofNested [[[[1, 2]]]] with
    | ok x => exact h.2.2.2.2.1 x hon
    | ragged => trivial
    | undef => trivial
  · cases hsv : (⟨1, 1, 1, 2, [3, 4]⟩ : Array4D).SetValues [9, 9] with
    | none => trivial
    | some x => exact h.2.2.2.2.2.1 (by decide) x hsv
  · cases hyx : (⟨1, 1, 1, 2, [3, 4]⟩ : Array4D).FillWithYX ⟨1, 2, [7, 8]⟩ with
    | none => trivial
    | some x => exact h.2.2.2.2.2.2.2.2.2.2.2.1 x hyx
  · cases hpz : (⟨1, 1, 1, 2, [3, 4]⟩ : Array4D).FillWithPZ ⟨1, 1, [7]⟩ with
    | none => trivial
    | some x => exact hPZ.2.2.2.2.2.2.2.2.2.2.2.2.1 x hpz
  · cases hem : (⟨1, 1, 1, 2, [3, 4]⟩ : Array4D).ElementwiseMultiply ⟨1, 1, 1, 2, [5, 6]⟩ with
    | none => trivial
    | some x => exact h.2.2.2.2.2.2.2.2.2.2.2.2.2.2.1 (by decide) x hem

/-- C1: under the shape preconditions MatrixMul succeeds, the output keeps
the result dimensions and the storage invariant, and each element (b,d,i,j)
equals the matrix-product sum over the inner dimension — a function of lhs
and rhs only, independent of the prior contents of result, since every
element is zero-initialized before accumulation; in particular the worked
(1,1,2,3) x (1,1,3,2) example produces [[58,64],[139,154]] although its
result operand started with garbage. -/
theorem c1_MatrixMul_correct (lhs rhs result : Array4D)
    (h1 : lhs.width = rhs.height) (h2 : lhs.height = result.height)
    (h3 : rhs.width = result.width) (h4 : lhs.depth = rhs.depth)
    (h5 : rhs.depth = result.depth) (h6 : lhs.planes = rhs.planes)
    (h7 : rhs.planes = result.planes) :
    (∀ x, MatrixMul lhs rhs result = some x →
      x.planes = result.planes ∧ x.depth = result.depth ∧
      x.height = result.height ∧ x.width = result.width ∧ x.valid ∧
      ∀ b d i j, b < result.planes → d < result.depth →
          i < result.height → j < result.width →
        x.At b d i j
          = some (∑ r ∈ Finset.range lhs.width, lhs.el b d i r * rhs.el b d r j)) ∧
    (MatrixMul lhs rhs result).isSome = true ∧
    MatrixMul mmLhsEx mmRhsEx mmResEx = some mmOutEx := by
  have hg : lhs.Width = rhs.Height ∧ lhs.Height = result.Height ∧ rhs.Width = result.Width
      ∧ lhs.Depth = rhs.Depth ∧ rhs.Depth = result.Depth
      ∧ lhs.Batch = rhs.Batch ∧ rhs.Batch = result.Batch :=
    ⟨h1, h2, h3, h4, h5, h6, h7⟩
  refine ⟨?_, ?_, ?_⟩
  · intro x hx
    unfold MatrixMul at hx
    rw [if_pos hg] at hx
    cases hx
    refine ⟨rfl, rfl, rfl, rfl, ?_, ?_⟩
    · show (grid4 result.planes result.depth lhs.height rhs.width (mmEntry lhs rhs)).length
          = result.planes * result.depth * result.height * result.width
      rw [grid4_length, h2, h3]
    · intro b d i j hb hd hi hj
      unfold Array4D.At
      rw [if_pos ⟨hb, hd, hi, hj⟩]
      unfold Array4D.el
      congr 1
      show (grid4 result.planes result.depth lhs.height rhs.width (mmEntry lhs rhs)).getD
          (b * (result.depth * result.height * result.width)
            + d * (result.height * result.width) + i * result.width + j) 0
        = ∑ r ∈ Finset.range lhs.width, lhs.el b d i r * rhs.el b d r j
      have hidx : b * (result.depth * result.height * result.width)
            + d * (result.height * result.width) + i * result.width + j
          = ((b * result.depth + d) * lhs.height + i) * rhs.width + j := by
        rw [h2, h3]
        ring
      rw [hidx, grid4_getD result.planes result.depth lhs.height rhs.width
        (mmEntry lhs rhs) b d i j hb hd (by rw [h2]; exact hi) (by rw [h3]; exact hj) 0]
      unfold mmEntry
      exact foldl_add_range _ _
  · unfold MatrixMul
    rw [if_pos hg]
    rfl
  · have hv : MatrixMul mmLhsEx mmRhsEx mmResEx = some ⟨1, 1, 2, 2,
        [0 + 1 * 7 + 2 * 9 + 3 * 11, 0 + 1 * 8 + 2 * 10 + 3 * 12,
         0 + 4 * 7 + 5 * 9 + 6 * 11, 0 + 4 * 8 + 5 * 10 + 6 * 12]⟩ := rfl
    rw [hv]
    norm_num [mmOutEx]

/-- Witness for C1: the worked example discharges the shape preconditions,
and the general element formula applied at (0,0,0,1) gives the inner-product
sum for that cell. -/
theorem c1_witness :
    mmOutEx.At 0 0 0 1
      = some (∑ r ∈ Finset.range mmLhsEx.width, mmLhsEx.el 0 0 0 r * mmRhsEx.el 0 0 r 1) := by
  have h := c1_MatrixMul_correct mmLhsEx mmRhsEx mmResEx rfl rfl rfl rfl rfl rfl rfl
  exact (h.1 mmOutEx h.2.2).2.2.2.2.2 0 0 0 1 (by decide) (by decide) (by decide) (by decide)
